import Mathlib

/-!
# Verification of the huff-rs code-generation engine

Shallow embedding of `src/huff_codegen/src/lib.rs` (the `Codegen` impl:
`roll`, `construct`, `recurse_bytecode`, `churn`, `abigen`) together with the
pieces of the `huff_utils` crate it depends on. The `huff_utils` AST,
bytecode and artifact types are not part of the sources at hand, so they are
modelled from the specification (marked `Modelled from the spec:` below);
everything else is translated directly from the Rust source.

Rust's unbounded recursion in `recurse_bytecode` is embedded with an explicit
fuel parameter: `none` means the fuel ran out (the Rust code would still be
recursing), `some` carries the Rust function's actual result together with
the final state of the `&mut Vec<MacroDefinition>` scope stack.
-/

deriving instance DecidableEq for Except

namespace HuffCodegen

/-! ## Hex formatting (Rust `hex::encode` and `format!` with `:02x` / `:04x`) -/

/-- Lowercase hex digit character for a value `0 ≤ n < 16` (Rust core fmt). -/
def hexDigitChar (n : Nat) : Char :=
  match n with
  | 0 => '0' | 1 => '1' | 2 => '2' | 3 => '3'
  | 4 => '4' | 5 => '5' | 6 => '6' | 7 => '7'
  | 8 => '8' | 9 => '9' | 10 => 'a' | 11 => 'b'
  | 12 => 'c' | 13 => 'd' | 14 => 'e' | 15 => 'f'
  | _ => '0'

/-- Numeric value of a lowercase hex digit character. -/
def hexCharVal (c : Char) : Nat :=
  match c with
  | '0' => 0 | '1' => 1 | '2' => 2 | '3' => 3
  | '4' => 4 | '5' => 5 | '6' => 6 | '7' => 7
  | '8' => 8 | '9' => 9 | 'a' => 10 | 'b' => 11
  | 'c' => 12 | 'd' => 13 | 'e' => 14 | 'f' => 15
  | _ => 0

/-- Big-endian numeric value of a list of hex digit characters. -/
def hexVal (cs : List Char) : Nat :=
  cs.foldl (fun acc c => 16 * acc + hexCharVal c) 0

/-- Structural worker for `toHexRaw`: the first argument is fuel (the
number itself suffices, since dividing by 16 strictly decreases it). -/
def toHexGo : Nat → Nat → List Char
  | 0, n => [hexDigitChar n]
  | fuel + 1, n =>
    if n < 16 then [hexDigitChar n]
    else toHexGo fuel (n / 16) ++ [hexDigitChar (n % 16)]

/-- Minimal (unpadded) lowercase hex rendering of a natural number,
big-endian, as Rust `format!` with `:x` produces (`0` renders as `"0"`). -/
def toHexRaw (n : Nat) : List Char := toHexGo n n

theorem toHexGo_congr :
    ∀ (n f1 f2 : Nat), n ≤ f1 → n ≤ f2 → toHexGo f1 n = toHexGo f2 n := by
  intro n
  induction n using Nat.strong_induction_on with
  | _ n ih =>
    intro f1 f2 h1 h2
    match f1, f2 with
    | 0, 0 => rfl
    | 0, f2 + 1 =>
      have : n = 0 := by omega
      subst this
      simp [toHexGo]
    | f1 + 1, 0 =>
      have : n = 0 := by omega
      subst this
      simp [toHexGo]
    | f1 + 1, f2 + 1 =>
      by_cases h16 : n < 16
      · simp [toHexGo, h16]
      · have hdivn : n / 16 < n := Nat.div_lt_self (by omega) (by omega)
        simp only [toHexGo, h16, if_false]
        rw [ih (n / 16) hdivn f1 f1 (by omega) (by omega),
          ih (n / 16) hdivn f1 f2 (by omega) (by omega)]

/-- Unfolding equation for `toHexRaw`. -/
theorem toHexRaw_eq (n : Nat) :
    toHexRaw n = if n < 16 then [hexDigitChar n]
      else toHexRaw (n / 16) ++ [hexDigitChar (n % 16)] := by
  match n with
  | 0 => rfl
  | n + 1 =>
    show toHexGo (n + 1) (n + 1) = _
    rw [toHexGo]
    by_cases h16 : n + 1 < 16
    · simp [h16]
    · have hdivn : (n + 1) / 16 < n + 1 := Nat.div_lt_self (by omega) (by omega)
      simp only [h16, if_false]
      rw [toHexGo_congr ((n + 1) / 16) n ((n + 1) / 16) (by omega) (by omega)]
      rfl

/-- Rust `format!` with `:0Nx`: minimal hex, left-padded with zeros to at
least `width` characters. -/
def rustHexPad (width n : Nat) : String :=
  ⟨List.replicate (width - (toHexRaw n).length) '0' ++ toHexRaw n⟩

/-- Two lowercase hex characters of one byte value (`b < 256`). -/
def byteToHex (b : Nat) : List Char :=
  [hexDigitChar (b / 16), hexDigitChar (b % 16)]

/-- Rust `hex::encode` over a byte slice: two lowercase hex characters per
byte, concatenated. Bytes are `Nat`s assumed `< 256` (Rust `u8`). -/
def hexEncode (bs : List Nat) : String :=
  ⟨(bs.map byteToHex).flatten⟩

/-! ### Lemmas about the hex formatters -/

theorem hexCharVal_hexDigitChar {n : Nat} (h : n < 16) :
    hexCharVal (hexDigitChar n) = n := by
  interval_cases n <;> rfl

theorem hexVal_append_digit (xs : List Char) (c : Char) :
    hexVal (xs ++ [c]) = 16 * hexVal xs + hexCharVal c := by
  simp [hexVal, List.foldl_append]

theorem hexVal_toHexRaw (n : Nat) : hexVal (toHexRaw n) = n := by
  induction n using Nat.strong_induction_on with
  | _ n ih =>
    rw [toHexRaw_eq]
    split
    · next h =>
      simp [hexVal, hexCharVal_hexDigitChar h]
    · next h =>
      rw [hexVal_append_digit, ih (n / 16) (Nat.div_lt_self (by omega) (by omega)),
        hexCharVal_hexDigitChar (Nat.mod_lt _ (by omega))]
      omega

theorem hexVal_replicate_zero_append (k : Nat) (s : List Char) :
    hexVal (List.replicate k '0' ++ s) = hexVal s := by
  induction k with
  | zero => simp
  | succ k ih =>
    simpa [List.replicate_succ, hexVal] using ih

theorem hexVal_rustHexPad (width n : Nat) :
    hexVal (rustHexPad width n).data = n := by
  simp [rustHexPad, hexVal_replicate_zero_append, hexVal_toHexRaw]

theorem toHexRaw_length_le (k : Nat) :
    ∀ n : Nat, 0 < k → n < 16 ^ k → (toHexRaw n).length ≤ k := by
  induction k with
  | zero => intro n h; omega
  | succ k ih =>
    intro n _ hn
    rw [toHexRaw_eq]
    split
    · simp
    · next h =>
      have hk : 0 < k := by
        by_contra hk0
        have : k = 0 := by omega
        subst this
        simp [pow_succ] at hn
        omega
      have hdiv : n / 16 < 16 ^ k := by
        have : n < 16 * 16 ^ k := by
          calc n < 16 ^ (k + 1) := hn
          _ = 16 * 16 ^ k := by ring
        exact Nat.div_lt_of_lt_mul this
      have := ih (n / 16) hk hdiv
      simp only [List.length_append, List.length_cons, List.length_nil]
      omega

theorem rustHexPad_length {width n : Nat} (h : (toHexRaw n).length ≤ width) :
    (rustHexPad width n).length = width := by
  show (List.replicate (width - (toHexRaw n).length) '0' ++ toHexRaw n).length = width
  simp only [List.length_append, List.length_replicate]
  omega

theorem rustHexPad_length_four {n : Nat} (h : n < 65536) :
    (rustHexPad 4 n).length = 4 :=
  rustHexPad_length (toHexRaw_length_le 4 n (by omega) (by norm_num; omega))

theorem toHexRaw_small {n : Nat} (h : n < 16) : toHexRaw n = [hexDigitChar n] := by
  rw [toHexRaw_eq]; simp [h]

/-- For a byte-sized value, Rust `format!` with `:02x` is exactly the
two-hex-character rendering of the byte. -/
theorem rustHexPad_two_eq_byteToHex {b : Nat} (h : b < 256) :
    rustHexPad 2 b = ⟨byteToHex b⟩ := by
  by_cases h16 : b < 16
  · have := toHexRaw_small h16
    simp [rustHexPad, this, byteToHex, Nat.div_eq_of_lt h16, Nat.mod_eq_of_lt h16,
      List.replicate, hexDigitChar]
  · have hdiv : b / 16 < 16 := by omega
    have h1 : toHexRaw b = toHexRaw (b / 16) ++ [hexDigitChar (b % 16)] := by
      rw [toHexRaw_eq]; simp [h16]
    rw [rustHexPad, h1, toHexRaw_small hdiv]
    simp [byteToHex, List.replicate]

theorem strAppend_assoc (a b c : String) : a ++ b ++ c = a ++ (b ++ c) := by
  cases a with | mk la =>
  cases b with | mk lb =>
  cases c with | mk lc =>
  exact congrArg String.mk (List.append_assoc la lb lc)

/-- Explicit four-hex-digit big-endian form of Rust `format!` with `:04x`
for values below `2^16`: most significant hex digit first. -/
theorem rustHexPad_four_eq {n : Nat} (h : n < 65536) :
    rustHexPad 4 n = ⟨[hexDigitChar (n / 4096), hexDigitChar (n / 256 % 16),
      hexDigitChar (n / 16 % 16), hexDigitChar (n % 16)]⟩ := by
  have e1 : n / 16 / 16 = n / 256 := by
    rw [Nat.div_div_eq_div_mul]
  have e2 : n / 256 / 16 = n / 4096 := by
    rw [Nat.div_div_eq_div_mul]
  by_cases c1 : n < 16
  · rw [rustHexPad, toHexRaw_small c1]
    have d1 : n / 4096 = 0 := Nat.div_eq_of_lt (by omega)
    have d2 : n / 256 = 0 := Nat.div_eq_of_lt (by omega)
    have d3 : n / 16 = 0 := Nat.div_eq_of_lt (by omega)
    have d4 : n % 16 = n := Nat.mod_eq_of_lt c1
    simp [d1, d2, d3, d4, List.replicate, hexDigitChar]
  · by_cases c2 : n < 256
    · have hd : n / 16 < 16 := by omega
      have et : toHexRaw n = [hexDigitChar (n / 16), hexDigitChar (n % 16)] := by
        rw [toHexRaw_eq]
        simp [c1, toHexRaw_small hd]
      rw [rustHexPad, et]
      have d1 : n / 4096 = 0 := Nat.div_eq_of_lt (by omega)
      have d2 : n / 256 = 0 := Nat.div_eq_of_lt (by omega)
      have d3 : n / 16 % 16 = n / 16 := Nat.mod_eq_of_lt hd
      simp [d1, d2, d3, List.replicate, hexDigitChar]
    · by_cases c3 : n < 4096
      · have hd : n / 256 < 16 := by omega
        have hge : ¬ n / 16 < 16 := by
          simp only [not_lt]
          omega
        have et : toHexRaw n = [hexDigitChar (n / 256), hexDigitChar (n / 16 % 16),
            hexDigitChar (n % 16)] := by
          rw [toHexRaw_eq]
          simp only [c1, if_false]
          rw [toHexRaw_eq]
          simp only [hge, if_false]
          rw [e1, toHexRaw_small hd]
          simp
        rw [rustHexPad, et]
        have d1 : n / 4096 = 0 := Nat.div_eq_of_lt (by omega)
        have d2 : n / 256 % 16 = n / 256 := Nat.mod_eq_of_lt hd
        simp [d1, d2, List.replicate, hexDigitChar]
      · have hd : n / 4096 < 16 := by omega
        have hge16 : ¬ n / 16 < 16 := by
          simp only [not_lt]
          omega
        have hge256 : ¬ n / 256 < 16 := by
          simp only [not_lt]
          omega
        have et : toHexRaw n = [hexDigitChar (n / 4096), hexDigitChar (n / 256 % 16),
            hexDigitChar (n / 16 % 16), hexDigitChar (n % 16)] := by
          rw [toHexRaw_eq]
          simp only [c1, if_false]
          rw [toHexRaw_eq]
          simp only [hge16, if_false]
          rw [e1, toHexRaw_eq]
          simp only [hge256, if_false]
          rw [e2, toHexRaw_small hd]
          simp
        rw [rustHexPad, et]
        simp [List.replicate]

theorem hexEncode_length (bs : List Nat) :
    (hexEncode bs).length = 2 * bs.length := by
  induction bs with
  | nil => rfl
  | cons b bs ih =>
    simp only [hexEncode, List.map_cons, List.flatten, byteToHex] at *
    simp only [String.length] at *
    simp at ih ⊢
    omega

/-! ## Data model

Modelled from the spec: the `huff_utils` crate's `ast`, `bytecode` and
`artifact` modules are not among the sources, so the types below follow the
spec's data model (§3) and interface contract (§6). -/

/-- Modelled from the spec: a `ConstantDefinition`'s value is "a tagged union
of {raw literal bytes (≤32 bytes), a free-storage-pointer marker}" (§3). -/
inductive ConstVal where
  | literal (l : List Nat)
  | freeStoragePointer
deriving DecidableEq, Repr

/-- Modelled from the spec: a named constant definition (§3). -/
structure ConstantDefinition where
  name : String
  value : ConstVal
deriving DecidableEq, Repr

/-- Modelled from the spec: a macro invocation by name with positional
argument expressions (§3); the expander reads only `macroName`. -/
structure MacroInvocation where
  macroName : String
  args : List String
deriving DecidableEq, Repr

/-- Modelled from the spec: a `Statement` is "a tagged variant over {macro
invocation, literal byte emission, label declaration, other non-invocation
forms}" (§3). -/
inductive Statement where
  | macroInvocation (mi : MacroInvocation)
  | literal (l : List Nat)
  | label (name : String)
deriving DecidableEq, Repr

/-- Modelled from the spec: `Byte` is "a two-hex-character string
representing one resolved byte" (§3); in Rust a newtype over `String`. -/
abbrev Byte := String

/-- Modelled from the spec: `IRByte`, "a tagged variant over {concrete byte
pair, named constant reference, nested statement, named argument-call
reference}" (§3). -/
inductive IRByte where
  | byte (b : Byte)
  | constant (name : String)
  | statement (s : Statement)
  | argCall (name : String)
deriving DecidableEq, Repr

/-- Modelled from the spec: a macro definition (§3). IR lowering (§4.1,
`to_irbytecode` in `huff_utils`) is not among the sources, so macro bodies
are held already in lowered IR form and lowering returns them unchanged;
the claims quantify over "the lowered IR sequence" directly. -/
structure MacroDefinition where
  name : String
  parameters : List String
  takes : Nat
  returns : Nat
  body : List IRByte
deriving DecidableEq, Repr

/-- Modelled from the spec: the AST root owning macros, constants and
interface declarations (§3, §6). -/
structure Contract where
  macros : List MacroDefinition
  constants : List ConstantDefinition
  functions : List String
  events : List String
deriving DecidableEq, Repr

/-- Modelled from the spec: `find_macro_by_name(name) -> Option<MacroDefinition>`
(§6); macro names are unique within a contract, so the first match is the
definition. -/
def Contract.find_macro_by_name (c : Contract) (name : String) :
    Option MacroDefinition :=
  (c.macros.filter (fun m => m.name = name)).head?

/-- Constant lookup exactly as `recurse_bytecode` performs it: filter the
contract's constants by name and take the first element. -/
def Contract.constLookup (c : Contract) (name : String) :
    Option ConstantDefinition :=
  (c.constants.filter (fun cd => cd.name = name)).head?

/-- Error kinds of `CodegenErrorKind` (the codegen source constructs every
error with `span: None, token: None`, so the kind is the whole content). -/
inductive CodegenErrorKind where
  | missingAst
  | missingConstructor
  | missingConstantDefinition
  | missingMacroDefinition
  | invalidMacroStatement
  | failedMacroRecursion
deriving DecidableEq, Repr

/-! ## The macro expander (`Codegen::recurse_bytecode`) -/

/-- One pass of the `for irbyte in irbz.iter()` loop body of
`recurse_bytecode`, parameterised by the recursive call (`recurse`). The
state is the remaining IR entries, the scope stack (Rust's
`&mut Vec<MacroDefinition>`, threaded explicitly) and the accumulated
`final_bytes`. Returns the loop's result together with the final scope. -/
def runLoop
    (recurse : MacroDefinition → Option Contract → List MacroDefinition →
      Option (Except CodegenErrorKind (List Byte) × List MacroDefinition))
    (contract : Contract) (ast : Option Contract) :
    List IRByte → List MacroDefinition → List Byte →
    Option (Except CodegenErrorKind (List Byte) × List MacroDefinition)
  | [], scope, final_bytes => some (.ok final_bytes, scope)
  | irbyte :: rest, scope, final_bytes =>
    match irbyte with
    | .byte b => runLoop recurse contract ast rest scope (final_bytes ++ [b])
    | .constant name =>
      match contract.constLookup name with
      | none => some (.error .missingConstantDefinition, scope)
      | some constant =>
        let push_bytes : String :=
          match constant.value with
          | .literal l =>
            let hex_literal := hexEncode l
            rustHexPad 2 (95 + hex_literal.length / 2) ++ hex_literal
          | .freeStoragePointer =>
            let hex_literal := hexEncode [0]
            rustHexPad 2 (95 + hex_literal.length / 2) ++ hex_literal
        runLoop recurse contract ast rest scope (final_bytes ++ [push_bytes])
    | .statement s =>
      match s with
      | .macroInvocation mi =>
        match contract.find_macro_by_name mi.macroName with
        | none => some (.error .missingMacroDefinition, scope)
        | some invokedDef =>
          match recurse invokedDef ast (scope ++ [invokedDef]) with
          | none => none
          | some (.ok bytes, scope2) =>
            runLoop recurse contract ast rest scope2 (final_bytes ++ bytes)
          | some (.error _, scope2) =>
            some (.error .failedMacroRecursion, scope2)
      | _ => some (.error .invalidMacroStatement, scope)
    | .argCall _ => runLoop recurse contract ast rest scope final_bytes

/-- `Codegen::recurse_bytecode`, with an explicit fuel bound on the recursion
depth (`none` = fuel exhausted; the Rust function recurses unboundedly). On
`some`, the pair carries the Rust result and the final scope stack. -/
def recurse_bytecode :
    Nat → MacroDefinition → Option Contract → List MacroDefinition →
    Option (Except CodegenErrorKind (List Byte) × List MacroDefinition)
  | 0, _, _, _ => none
  | fuel + 1, macroDef, ast, scope =>
    match ast with
    | none => some (.error .missingAst, scope)
    | some contract =>
      runLoop (recurse_bytecode fuel) contract ast macroDef.body scope []

/-- `Codegen::construct`: find the `CONSTRUCTOR` macro, recurse it with the
scope stack seeded with the constructor macro itself, and join the resulting
two-hex-character byte strings into one hex string. -/
def construct (fuel : Nat) (ast : Option Contract) :
    Option (Except CodegenErrorKind String) :=
  match ast with
  | none => some (.error .missingAst)
  | some contract =>
    match contract.find_macro_by_name "CONSTRUCTOR" with
    | none => some (.error .missingConstructor)
    | some cMacro =>
      match recurse_bytecode fuel cMacro ast [cMacro] with
      | none => none
      | some (.error e, _) => some (.error e)
      | some (.ok bytes, _) => some (.ok (String.join bytes))

/-- `Codegen::roll`: the main-bytecode generator. The source initialises
`bytecode` to `String::default()`, checks the AST is present, and returns
the (still empty) string — the expansion logic is an unimplemented TODO. -/
def roll (ast : Option Contract) : Except CodegenErrorKind String :=
  match ast with
  | none => .error .missingAst
  | some _ => .ok ""

/-! ## Artifact assembly (`Codegen::churn`) and ABI population -/

/-- Modelled from the spec: the ABI is "a structured description of a
contract's externally callable functions and emitted events" (glossary);
its internal shape is irrelevant to the claims, only its identity is. -/
structure Abi where
  functions : List String
  events : List String
deriving DecidableEq, Repr

/-- Modelled from the spec: `Abi` derivation from the AST (`ast.into()` in
`abigen`, §4.4): copies the declared function/event interface lists. -/
def Contract.toAbi (c : Contract) : Abi :=
  { functions := c.functions, events := c.events }

/-- Modelled from the spec: the `Artifact` record with "at least three
fields — `bytecode` …, `runtime` …, `abi` (optional)" (§6); `Default`
gives empty strings and no ABI. -/
structure Artifact where
  bytecode : String := ""
  runtime : String := ""
  abi : Option Abi := none
deriving DecidableEq, Repr

/-- The `Codegen` struct: the AST and the cached output artifact, plus the
intermediate bytecode stores (never written by the embedded operations,
mirroring the source where the writes are commented out). -/
structure Codegen where
  ast : Option Contract := none
  artifact : Option Artifact := none
  main_bytecode : Option String := none
  constructor_bytecode : Option String := none
deriving DecidableEq, Repr

/-- `Codegen::churn`. Constructor arguments are `ethers` ABI tokens; ABI
encoding (`ethers::abi::encode`, an external crate) is a pure function of
each token, so a token is represented here by its already-ABI-encoded byte
list, and `churn` hex-encodes and joins them exactly as the source does.
Returns the updated `Codegen` (Rust mutates `self`) and the artifact clone
the source returns; the source's only exit is `Ok`, so no error type. -/
def churn (self : Codegen) (args : List (List Nat))
    (main_bytecode constructor_bytecode : String) : Codegen × Artifact :=
  let artifact0 : Artifact :=
    match self.artifact with
    | some art => art
    | none => {}
  let contract_length := main_bytecode.length / 2
  let constructor_length := constructor_bytecode.length / 2
  let contract_size := rustHexPad 4 contract_length
  let contract_code_offset := rustHexPad 4 (13 + constructor_length)
  let hex_args : List String := args.map hexEncode
  let constructor_args := String.join hex_args
  let bootstrap_code :=
    "61" ++ contract_size ++ "8061" ++ contract_code_offset ++ "6000396000f3"
  let constructor_code := constructor_bytecode ++ bootstrap_code
  let artifact : Artifact :=
    { artifact0 with
        bytecode := constructor_code ++ main_bytecode ++ constructor_args
        runtime := main_bytecode }
  ({ self with artifact := some artifact }, artifact)

/-- `Codegen::abigen` (without the optional export step, which only writes
the artifact to disk and never alters it): derives the ABI from the AST and
stores it in the cached artifact, creating a default artifact around it when
none exists yet. Returns the updated `Codegen` and the ABI. -/
def abigen (self : Codegen) (ast : Contract) : Codegen × Abi :=
  let abi := ast.toAbi
  let artifact : Artifact :=
    match self.artifact with
    | some art => { art with abi := some abi }
    | none => { bytecode := "", runtime := "", abi := some abi }
  ({ self with artifact := some artifact }, abi)

/-! ## General lemmas about the expander -/

theorem hexEncode_length_div_two (l : List Nat) :
    (hexEncode l).length / 2 = l.length := by
  rw [hexEncode_length]; omega

/-- String append of two explicit character lists. -/
theorem strMk_append (a b : List Char) :
    (⟨a⟩ : String) ++ (⟨b⟩ : String) = ⟨a ++ b⟩ := rfl

/-- Processing a run of concrete IR byte pairs just moves them onto the
accumulator, in order. -/
theorem runLoop_bytes (recurse) (contract : Contract) (ast : Option Contract)
    (pre : List Byte) :
    ∀ (rest : List IRByte) (scope : List MacroDefinition) (acc : List Byte),
    runLoop recurse contract ast (pre.map IRByte.byte ++ rest) scope acc =
      runLoop recurse contract ast rest scope (acc ++ pre) := by
  induction pre with
  | nil => simp
  | cons b pre ih =>
    intro rest scope acc
    rw [List.map_cons, List.cons_append, runLoop, ih]
    congr 1
    simp

/-- The scope stack only ever grows: any returning call leaves its input
scope as a prefix of the final scope (the loop body for `runLoop`, assuming
the same of the recursive callback). -/
theorem runLoop_scope_extends (recurse) (contract : Contract)
    (ast : Option Contract)
    (hrec : ∀ m a scope out, recurse m a scope = some out →
      ∃ ext, out.2 = scope ++ ext) :
    ∀ (irbz : List IRByte) (scope : List MacroDefinition) (acc : List Byte)
      (out), runLoop recurse contract ast irbz scope acc = some out →
      ∃ ext, out.2 = scope ++ ext := by
  intro irbz
  induction irbz with
  | nil =>
    intro scope acc out h
    exact ⟨[], by simpa [runLoop] using (congrArg (Option.map Prod.snd) h).symm⟩
  | cons irbyte rest ih =>
    intro scope acc out h
    match irbyte with
    | .byte b => exact ih _ _ _ h
    | .argCall a => exact ih _ _ _ h
    | .constant name =>
      rw [runLoop] at h
      match hc : contract.constLookup name with
      | none =>
        rw [hc] at h
        exact ⟨[], by simpa using (congrArg (Option.map Prod.snd) h).symm⟩
      | some cd =>
        rw [hc] at h
        exact ih _ _ _ h
    | .statement s =>
      cases s with
      | literal l =>
        have h' : (some (Except.error CodegenErrorKind.invalidMacroStatement, scope) :
            Option (Except CodegenErrorKind (List Byte) × List MacroDefinition)) = some out := h
        exact ⟨[], by simpa using (congrArg (Option.map Prod.snd) h').symm⟩
      | label nm =>
        have h' : (some (Except.error CodegenErrorKind.invalidMacroStatement, scope) :
            Option (Except CodegenErrorKind (List Byte) × List MacroDefinition)) = some out := h
        exact ⟨[], by simpa using (congrArg (Option.map Prod.snd) h').symm⟩
      | macroInvocation mi =>
        rw [runLoop] at h
        split at h
        · exact ⟨[], by simpa using (congrArg (Option.map Prod.snd) h).symm⟩
        · rename_i irMacro hfind
          split at h
          · exact absurd h (by simp)
          · rename_i bytes scope2 hr
            obtain ⟨ext1, h1⟩ := hrec _ _ _ _ hr
            obtain ⟨ext2, h2⟩ := ih _ _ _ h
            replace h1 : scope2 = (scope ++ [irMacro]) ++ ext1 := h1
            exact ⟨[irMacro] ++ ext1 ++ ext2, by rw [h2, h1]; simp⟩
          · rename_i e scope2 hr
            obtain ⟨ext1, h1⟩ := hrec _ _ _ _ hr
            replace h1 : scope2 = (scope ++ [irMacro]) ++ ext1 := h1
            refine ⟨[irMacro] ++ ext1, ?_⟩
            have hout : out = (.error .failedMacroRecursion, scope2) := by
              simpa using h.symm
            rw [hout, h1]; simp

/-- The scope stack only ever grows across `recurse_bytecode`. -/
theorem recurse_bytecode_scope_extends :
    ∀ (fuel : Nat) (m : MacroDefinition) (ast : Option Contract)
      (scope : List MacroDefinition) (out),
      recurse_bytecode fuel m ast scope = some out →
      ∃ ext, out.2 = scope ++ ext := by
  intro fuel
  induction fuel with
  | zero => intro m ast scope out h; exact absurd h (by simp [recurse_bytecode])
  | succ fuel ih =>
    intro m ast scope out h
    match ast with
    | none =>
      have h' : (some (Except.error CodegenErrorKind.missingAst, scope) :
          Option (Except CodegenErrorKind (List Byte) × List MacroDefinition)) = some out := h
      exact ⟨[], by simpa using (congrArg (Option.map Prod.snd) h').symm⟩
    | some contract =>
      exact runLoop_scope_extends _ contract _ ih _ _ _ _ h

theorem strAppend_empty (a : String) : a ++ "" = a := by
  cases a with | mk la =>
  exact congrArg String.mk (List.append_nil la)

/-- Shared layout fact: the deployment bytecode `churn` stores and returns
is the constructor bytecode, the bootstrap template around the two
`format!`-encoded size/offset fields, the runtime bytecode, and the
hex-encoded constructor arguments, in that order. -/
theorem churn_bytecode (self : Codegen) (args : List (List Nat))
    (mainB ctorB : String) :
    (churn self args mainB ctorB).2.bytecode =
      ctorB ++ "61" ++ rustHexPad 4 (mainB.length / 2) ++ "8061" ++
        rustHexPad 4 (13 + ctorB.length / 2) ++ "6000396000f3" ++ mainB ++
        String.join (args.map hexEncode) := by
  show (ctorB ++ ("61" ++ rustHexPad 4 (mainB.length / 2) ++ "8061" ++
      rustHexPad 4 (13 + ctorB.length / 2) ++ "6000396000f3")) ++ mainB ++
      String.join (args.map hexEncode) = _
  simp only [strAppend_assoc]

/-! ## Concrete fixtures used by witnesses and counterexamples -/

/-- Example constants: a 1-byte literal `0xAB`, a 32-byte literal, and a
free storage pointer. -/
def exConstants : List ConstantDefinition :=
  [⟨"ONE_BYTE", .literal [171]⟩,
   ⟨"FULL_WORD", .literal [1, 2, 3, 4, 5, 6, 7, 8, 9, 10, 11, 12, 13, 14, 15, 16,
      17, 18, 19, 20, 21, 22, 23, 24, 25, 26, 27, 28, 29, 30, 31, 32]⟩,
   ⟨"SLOT", .freeStoragePointer⟩]

/-- Example contract holding the example constants and no macros. -/
def exConstContract : Contract := ⟨[], exConstants, [], []⟩

/-- Leaf macro emitting the byte `0x01`. -/
def exMacroA : MacroDefinition := ⟨"A", [], 0, 0, [.byte "01"]⟩

/-- Leaf macro emitting the byte `0x02`. -/
def exMacroB : MacroDefinition := ⟨"B", [], 0, 0, [.byte "02"]⟩

/-- Macro invoking `A` then `B` as siblings. -/
def exMacroSib : MacroDefinition :=
  ⟨"SIB", [], 0, 0,
    [.statement (.macroInvocation ⟨"A", []⟩), .statement (.macroInvocation ⟨"B", []⟩)]⟩

/-- Macro emitting `0x60`, invoking `A`, then emitting `0x61`. -/
def exMacroWrap : MacroDefinition :=
  ⟨"WRAP", [], 0, 0,
    [.byte "60", .statement (.macroInvocation ⟨"A", []⟩), .byte "61"]⟩

/-- Contract holding the sibling/wrapping example macros. -/
def exContract : Contract := ⟨[exMacroSib, exMacroWrap, exMacroA, exMacroB], [], [], []⟩

/-- Macro invoking the undefined macro `X`. -/
def exMacroBadInner : MacroDefinition :=
  ⟨"INNER", [], 0, 0, [.statement (.macroInvocation ⟨"X", []⟩)]⟩

/-- Macro invoking `INNER` (whose own expansion fails). -/
def exMacroBadOuter : MacroDefinition :=
  ⟨"OUTER", [], 0, 0, [.statement (.macroInvocation ⟨"INNER", []⟩)]⟩

/-- Contract for the nested-failure scenario. -/
def exBadContract : Contract := ⟨[exMacroBadOuter, exMacroBadInner], [], [], []⟩

/-! ## The claims -/

/-- C1: for a named constant reference resolved during expansion, a literal
value of `n ≤ 32` bytes is appended as one push instruction: the opcode
byte `0x5F + n` (two lowercase hex characters) followed by the `n` literal
bytes in lowercase hex; a free-storage-pointer value is appended as exactly
`"6000"`. -/
theorem constant_push_encoding :
    (∀ (c : Contract) (mn cname : String) (ps : List String)
      (t r fuel : Nat) (scope : List MacroDefinition)
      (cd : ConstantDefinition) (l : List Nat),
      c.constLookup cname = some cd →
      cd.value = .literal l →
      l.length ≤ 32 →
      recurse_bytecode (fuel + 1) ⟨mn, ps, t, r, [.constant cname]⟩ (some c) scope =
        some (.ok [⟨byteToHex (95 + l.length) ++ (hexEncode l).data⟩], scope)) ∧
    (∀ (c : Contract) (mn cname : String) (ps : List String)
      (t r fuel : Nat) (scope : List MacroDefinition)
      (cd : ConstantDefinition),
      c.constLookup cname = some cd →
      cd.value = .freeStoragePointer →
      recurse_bytecode (fuel + 1) ⟨mn, ps, t, r, [.constant cname]⟩ (some c) scope =
        some (.ok ["6000"], scope)) := by
  constructor
  · intro c mn cname ps t r fuel scope cd l hlook hval hlen
    simp only [recurse_bytecode, runLoop, hlook, hval]
    rw [hexEncode_length_div_two, rustHexPad_two_eq_byteToHex (by omega)]
    rfl
  · intro c mn cname ps t r fuel scope cd hlook hval
    simp only [recurse_bytecode, runLoop, hlook, hval]
    rfl

/-- Witness for C1 at concrete inputs: the 1-byte literal `0xAB` resolves
to `"60ab"`, the 32-byte literal to `0x7F` followed by its 64 hex
characters, and the free storage pointer to `"6000"`. -/
theorem constant_push_encoding_witness :
    recurse_bytecode 1 ⟨"M1", [], 0, 0, [.constant "ONE_BYTE"]⟩
        (some exConstContract) [] = some (.ok ["60ab"], []) ∧
    recurse_bytecode 1 ⟨"M2", [], 0, 0, [.constant "FULL_WORD"]⟩
        (some exConstContract) [] =
      some (.ok ["7f0102030405060708090a0b0c0d0e0f101112131415161718191a1b1c1d1e1f20"], []) ∧
    recurse_bytecode 1 ⟨"M3", [], 0, 0, [.constant "SLOT"]⟩
        (some exConstContract) [] = some (.ok ["6000"], []) := by
  refine ⟨?_, ?_, ?_⟩
  · rw [constant_push_encoding.1 exConstContract "M1" "ONE_BYTE" [] 0 0 0 []
      ⟨"ONE_BYTE", .literal [171]⟩ [171] (by decide) rfl (by decide)]
    decide
  · rw [constant_push_encoding.1 exConstContract "M2" "FULL_WORD" [] 0 0 0 []
      ⟨"FULL_WORD", .literal [1, 2, 3, 4, 5, 6, 7, 8, 9, 10, 11, 12, 13, 14, 15, 16,
        17, 18, 19, 20, 21, 22, 23, 24, 25, 26, 27, 28, 29, 30, 31, 32]⟩
      [1, 2, 3, 4, 5, 6, 7, 8, 9, 10, 11, 12, 13, 14, 15, 16,
        17, 18, 19, 20, 21, 22, 23, 24, 25, 26, 27, 28, 29, 30, 31, 32]
      (by decide) rfl (by decide)]
    decide
  · exact constant_push_encoding.2 exConstContract "M3" "SLOT" [] 0 0 0 []
      ⟨"SLOT", .freeStoragePointer⟩ (by decide) rfl

/-- C2: for even-length hex inputs whose byte sizes fit the two-byte
fields, `churn` computes `contract_size` and `contract_code_offset` as the
four-hex-digit big-endian encodings of `main.len()/2` and
`13 + constructor.len()/2`, and assembles
`constructor ++ "61" ++ size ++ "8061" ++ offset ++ "6000396000f3" ++ main
++ hex-encoded args` as the deployment bytecode, with the runtime field
equal to the main bytecode. -/
theorem churn_deployment_layout :
    ∀ (self : Codegen) (args : List (List Nat)) (mainB ctorB : String),
    mainB.length % 2 = 0 → ctorB.length % 2 = 0 →
    mainB.length / 2 < 65536 → 13 + ctorB.length / 2 < 65536 →
    (churn self args mainB ctorB).2.bytecode =
        ctorB ++ "61" ++ rustHexPad 4 (mainB.length / 2) ++ "8061" ++
          rustHexPad 4 (13 + ctorB.length / 2) ++ "6000396000f3" ++ mainB ++
          String.join (args.map hexEncode) ∧
      (churn self args mainB ctorB).2.runtime = mainB ∧
      rustHexPad 4 (mainB.length / 2) =
        ⟨[hexDigitChar (mainB.length / 2 / 4096),
          hexDigitChar (mainB.length / 2 / 256 % 16),
          hexDigitChar (mainB.length / 2 / 16 % 16),
          hexDigitChar (mainB.length / 2 % 16)]⟩ ∧
      (rustHexPad 4 (mainB.length / 2)).length = 4 ∧
      rustHexPad 4 (13 + ctorB.length / 2) =
        ⟨[hexDigitChar ((13 + ctorB.length / 2) / 4096),
          hexDigitChar ((13 + ctorB.length / 2) / 256 % 16),
          hexDigitChar ((13 + ctorB.length / 2) / 16 % 16),
          hexDigitChar ((13 + ctorB.length / 2) % 16)]⟩ ∧
      (rustHexPad 4 (13 + ctorB.length / 2)).length = 4 := by
  intro self args mainB ctorB he1 he2 h1 h2
  exact ⟨churn_bytecode self args mainB ctorB, rfl,
    rustHexPad_four_eq h1, rustHexPad_length_four h1,
    rustHexPad_four_eq h2, rustHexPad_length_four h2⟩

/-- Witness for C2 at a concrete input: two-byte runtime `"aabb"`,
two-byte constructor `"ccdd"`, one argument that ABI-encodes to the bytes
`[1, 2]`. -/
theorem churn_deployment_layout_witness :
    (churn {} [[1, 2]] "aabb" "ccdd").2.bytecode =
        "ccdd6100028061000f6000396000f3aabb0102" ∧
      (churn {} [[1, 2]] "aabb" "ccdd").2.runtime = "aabb" := by
  have h := churn_deployment_layout {} [[1, 2]] "aabb" "ccdd"
    (by decide) (by decide) (by decide) (by decide)
  refine ⟨?_, h.2.1⟩
  rw [h.1]
  decide

/-- Counterexample to C3 as stated: for a 10-byte runtime and empty
constructor, the deployment bytecode is not the claimed
`"61000a80610d6000396000f3"` followed by the runtime — the claimed
bootstrap string drops the leading zero byte of the two-byte offset
field. -/
theorem assembler_offset_counterexample :
    (churn {} [] "aabbccddeeff00112233" "").2.bytecode ≠
      "61000a80610d6000396000f3" ++ "aabbccddeeff00112233" := by
  decide

/-- C3 as amended: with a 10-byte runtime, empty constructor and no
arguments, `contract_size` is `"000a"`, `contract_code_offset` is
`"000d"`, and the deployment bytecode is the 13-byte bootstrap
`"61000a8061000d6000396000f3"` (the offset occupies two bytes) followed by
the 20 runtime hex characters with nothing after them. -/
theorem assembler_offset_scenario :
    ∀ (self : Codegen) (mainB : String), mainB.length = 20 →
      rustHexPad 4 (mainB.length / 2) = "000a" ∧
      rustHexPad 4 13 = "000d" ∧
      (churn self [] mainB "").2.bytecode =
        "61000a8061000d6000396000f3" ++ mainB ∧
      (churn self [] mainB "").2.runtime = mainB := by
  intro self mainB hlen
  have hcs : rustHexPad 4 (mainB.length / 2) = "000a" := by
    rw [hlen]; decide
  refine ⟨hcs, by decide, ?_, rfl⟩
  rw [churn_bytecode, hcs]
  have hpre : ("" : String) ++ "61" ++ "000a" ++ "8061" ++
      rustHexPad 4 (13 + "".length / 2) ++ "6000396000f3" =
      "61000a8061000d6000396000f3" := by decide
  rw [hpre]
  have hj : String.join (([] : List (List Nat)).map hexEncode) = "" := rfl
  rw [hj, strAppend_empty]

/-- Witness for the amended C3 at the concrete 10-byte runtime of the
spec's scenario. -/
theorem assembler_offset_scenario_witness :
    rustHexPad 4 ((("aabbccddeeff00112233" : String).length) / 2) = "000a" ∧
      (churn {} [] "aabbccddeeff00112233" "").2.bytecode =
        "61000a8061000d6000396000f3" ++ "aabbccddeeff00112233" ∧
      (churn {} [] "aabbccddeeff00112233" "").2.runtime =
        "aabbccddeeff00112233" := by
  have h := assembler_offset_scenario {} "aabbccddeeff00112233" (by decide)
  exact ⟨h.1, h.2.2.1, h.2.2.2⟩

/-- C4: macro expansion inlines invocations pre-order at their source
positions. A macro whose IR is `b1`, an invocation of `N`, `b2` expands to
`b1 ++ expand(N) ++ b2` when `N`'s expansion succeeds, fails when `N`'s
expansion fails, and two sibling invocations expand to
`expand(A) ++ expand(B)` in source order. -/
theorem preorder_inlining :
    (∀ (c : Contract) (mn : String) (ps : List String) (t r : Nat)
      (b1 b2 : Byte) (mi : MacroInvocation) (nM : MacroDefinition)
      (fuel : Nat) (scope scope' : List MacroDefinition) (n : List Byte),
      c.find_macro_by_name mi.macroName = some nM →
      recurse_bytecode fuel nM (some c) (scope ++ [nM]) = some (.ok n, scope') →
      recurse_bytecode (fuel + 1)
          ⟨mn, ps, t, r, [.byte b1, .statement (.macroInvocation mi), .byte b2]⟩
          (some c) scope =
        some (.ok (b1 :: (n ++ [b2])), scope')) ∧
    (∀ (c : Contract) (mn : String) (ps : List String) (t r : Nat)
      (b1 b2 : Byte) (mi : MacroInvocation) (nM : MacroDefinition)
      (fuel : Nat) (scope scope' : List MacroDefinition) (e : CodegenErrorKind),
      c.find_macro_by_name mi.macroName = some nM →
      recurse_bytecode fuel nM (some c) (scope ++ [nM]) = some (.error e, scope') →
      recurse_bytecode (fuel + 1)
          ⟨mn, ps, t, r, [.byte b1, .statement (.macroInvocation mi), .byte b2]⟩
          (some c) scope =
        some (.error .failedMacroRecursion, scope')) ∧
    (∀ (c : Contract) (mn : String) (ps : List String) (t r : Nat)
      (miA miB : MacroInvocation) (aM bM : MacroDefinition) (fuel : Nat)
      (scope scopeA scopeB : List MacroDefinition) (a b : List Byte),
      c.find_macro_by_name miA.macroName = some aM →
      c.find_macro_by_name miB.macroName = some bM →
      recurse_bytecode fuel aM (some c) (scope ++ [aM]) = some (.ok a, scopeA) →
      recurse_bytecode fuel bM (some c) (scopeA ++ [bM]) = some (.ok b, scopeB) →
      recurse_bytecode (fuel + 1)
          ⟨mn, ps, t, r, [.statement (.macroInvocation miA),
            .statement (.macroInvocation miB)]⟩ (some c) scope =
        some (.ok (a ++ b), scopeB)) := by
  refine ⟨?_, ?_, ?_⟩
  · intro c mn ps t r b1 b2 mi nM fuel scope scope' n hfind hN
    show runLoop (recurse_bytecode fuel) c (some c)
      [.byte b1, .statement (.macroInvocation mi), .byte b2] scope [] = _
    simp only [runLoop, hfind, hN, List.nil_append]
    simp
  · intro c mn ps t r b1 b2 mi nM fuel scope scope' e hfind hN
    show runLoop (recurse_bytecode fuel) c (some c)
      [.byte b1, .statement (.macroInvocation mi), .byte b2] scope [] = _
    simp only [runLoop, hfind, hN]
  · intro c mn ps t r miA miB aM bM fuel scope scopeA scopeB a b hfa hfb ha hb
    show runLoop (recurse_bytecode fuel) c (some c)
      [.statement (.macroInvocation miA), .statement (.macroInvocation miB)]
      scope [] = _
    simp only [runLoop, hfa, hfb, ha, hb, List.nil_append]

/-- Witness for C4: `WRAP` = `0x60`, invoke `A`, `0x61` expands to
`["60", "01", "61"]`; the sibling macro expands to
`expand(A) ++ expand(B) = ["01", "02"]`. -/
theorem preorder_inlining_witness :
    recurse_bytecode 2 exMacroWrap (some exContract) [] =
        some (.ok ["60", "01", "61"], [exMacroA]) ∧
      recurse_bytecode 2 exMacroSib (some exContract) [] =
        some (.ok ["01", "02"], [exMacroA, exMacroB]) := by
  constructor
  · exact preorder_inlining.1 exContract "WRAP" [] 0 0 "60" "61" ⟨"A", []⟩
      exMacroA 1 [] [exMacroA] ["01"] (by decide) (by decide)
  · exact preorder_inlining.2.2 exContract "SIB" [] 0 0 ⟨"A", []⟩ ⟨"B", []⟩
      exMacroA exMacroB 1 [] [exMacroA] [exMacroA, exMacroB] ["01"] ["02"]
      (by decide) (by decide) (by decide) (by decide)

/-- Counterexample to C5 as stated: `OUTER` invokes `INNER`, whose body
invokes the undefined macro `X`. `OUTER`'s expansion reaches the undefined
invocation, yet `recurse_bytecode` on `OUTER` reports
`failedMacroRecursion`, not `missingMacroDefinition` — the specific error
kind only surfaces from the directly-containing macro's call. -/
theorem missing_symbol_counterexample :
    recurse_bytecode 3 exMacroBadOuter (some exBadContract) [exMacroBadOuter] =
        some (.error .failedMacroRecursion, [exMacroBadOuter, exMacroBadInner]) ∧
      CodegenErrorKind.failedMacroRecursion ≠ .missingMacroDefinition := by
  decide

/-- C5 as amended: the `recurse_bytecode` call on the macro whose own body
contains the bad reference fails fast with the specific error kind (and no
bytes): an invocation of an undefined macro name yields
`missingMacroDefinition`, a reference to an undefined constant yields
`missingConstantDefinition` (enclosing macros report
`failedMacroRecursion` instead), and `construct` on a contract with no
`CONSTRUCTOR` macro yields `missingConstructor`. -/
theorem missing_symbol_errors :
    (∀ (c : Contract) (mn : String) (ps : List String) (t r : Nat)
      (pre : List Byte) (mi : MacroInvocation) (rest : List IRByte)
      (fuel : Nat) (scope : List MacroDefinition),
      c.find_macro_by_name mi.macroName = none →
      recurse_bytecode (fuel + 1)
          ⟨mn, ps, t, r, pre.map IRByte.byte ++ .statement (.macroInvocation mi) :: rest⟩
          (some c) scope =
        some (.error .missingMacroDefinition, scope)) ∧
    (∀ (c : Contract) (mn cname : String) (ps : List String) (t r : Nat)
      (pre : List Byte) (rest : List IRByte) (fuel : Nat)
      (scope : List MacroDefinition),
      c.constLookup cname = none →
      recurse_bytecode (fuel + 1)
          ⟨mn, ps, t, r, pre.map IRByte.byte ++ .constant cname :: rest⟩
          (some c) scope =
        some (.error .missingConstantDefinition, scope)) ∧
    (∀ (c : Contract) (fuel : Nat),
      c.find_macro_by_name "CONSTRUCTOR" = none →
      construct fuel (some c) = some (.error .missingConstructor)) := by
  refine ⟨?_, ?_, ?_⟩
  · intro c mn ps t r pre mi rest fuel scope hfind
    show runLoop (recurse_bytecode fuel) c (some c)
      (pre.map IRByte.byte ++ .statement (.macroInvocation mi) :: rest) scope [] = _
    rw [runLoop_bytes]
    simp only [runLoop, hfind]
  · intro c mn cname ps t r pre rest fuel scope hlook
    show runLoop (recurse_bytecode fuel) c (some c)
      (pre.map IRByte.byte ++ .constant cname :: rest) scope [] = _
    rw [runLoop_bytes]
    simp only [runLoop, hlook]
  · intro c fuel hnone
    simp only [construct, hnone]

/-- Witness for the amended C5 at concrete inputs: an undefined macro
invocation, an undefined constant reference, and a contract with no
`CONSTRUCTOR` macro. -/
theorem missing_symbol_errors_witness :
    recurse_bytecode 1 ⟨"W1", [], 0, 0,
        [.byte "aa", .statement (.macroInvocation ⟨"NOPE", []⟩)]⟩
        (some exConstContract) [] =
      some (.error .missingMacroDefinition, []) ∧
    recurse_bytecode 1 ⟨"W2", [], 0, 0, [.byte "aa", .constant "NOPE"]⟩
        (some exConstContract) [] =
      some (.error .missingConstantDefinition, []) ∧
    construct 1 (some exConstContract) = some (.error .missingConstructor) := by
  refine ⟨?_, ?_, ?_⟩
  · exact missing_symbol_errors.1 exConstContract "W1" [] 0 0 ["aa"]
      ⟨"NOPE", []⟩ [] 0 [] (by decide)
  · exact missing_symbol_errors.2.1 exConstContract "W2" "NOPE" [] 0 0 ["aa"]
      [] 0 [] (by decide)
  · exact missing_symbol_errors.2.2 exConstContract 1 (by decide)

/-- Contract containing a `MAIN` macro whose expansion is non-empty. -/
def exMainMacro : MacroDefinition := ⟨"MAIN", [], 0, 0, [.byte "60"]⟩

/-- Contract holding only the `MAIN` macro. -/
def exMainContract : Contract := ⟨[exMainMacro], [], [], []⟩

/-- C6 evaluated at the failing input: the contract has a `MAIN` macro that
the expander turns into the non-empty bytecode `"60"`, yet `roll` returns
the empty string — the main-bytecode generation path is an unimplemented
stub, contradicting `roll`'s own documentation ("Generates main bytecode
from a Contract AST"). -/
theorem roll_stub_divergence :
    roll (some exMainContract) = .ok "" ∧
      exMainContract.find_macro_by_name "MAIN" = some exMainMacro ∧
      recurse_bytecode 1 exMainMacro (some exMainContract) [exMainMacro] =
        some (.ok ["60"], [exMainMacro]) ∧
      String.join ["60"] ≠ "" := by
  decide

/-- Counterexample to C7 as stated: after expanding the two-sibling macro
`SIB` from the initial scope `[SIB]`, the scope stack holds
`[SIB, A, B]` — the completed invocation of `A` is still on the stack while
(and after) the sibling `B` is processed, so the scope is not the call path
from the entry macro to the macro being expanded. -/
theorem scope_stack_counterexample :
    recurse_bytecode 2 exMacroSib (some exContract) [exMacroSib] =
        some (.ok ["01", "02"], [exMacroSib, exMacroA, exMacroB]) ∧
      ([exMacroSib, exMacroA, exMacroB] : List MacroDefinition) ≠ [exMacroSib] := by
  decide

/-- C7 as amended: each recursive call pushes the invoked macro onto the
current scope, but completed invocations are never popped — the scope stack
only accumulates: every returning call's final scope extends its input
scope, and for the two-sibling example the final scope is the initial
scope extended by both siblings in traversal order. -/
theorem scope_stack_accumulates :
    (∀ (fuel : Nat) (m : MacroDefinition) (ast : Option Contract)
      (scope : List MacroDefinition) (out),
      recurse_bytecode fuel m ast scope = some out →
      ∃ ext, out.2 = scope ++ ext) ∧
    recurse_bytecode 2 exMacroSib (some exContract) [exMacroSib] =
      some (.ok ["01", "02"], [exMacroSib] ++ [exMacroA, exMacroB]) := by
  exact ⟨recurse_bytecode_scope_extends, by decide⟩

/-- Witness for the amended C7: the general accumulation fact applied at
the concrete two-sibling expansion. -/
theorem scope_stack_accumulates_witness :
    ∃ ext, ([exMacroSib, exMacroA, exMacroB] : List MacroDefinition) =
      [exMacroSib] ++ ext := by
  exact scope_stack_accumulates.1 2 exMacroSib (some exContract) [exMacroSib]
    (.ok ["01", "02"], [exMacroSib, exMacroA, exMacroB]) (by decide)

/-- C8: a nested statement wrapping anything other than a macro invocation
(for example a label declaration) makes `recurse_bytecode` return the
`invalidMacroStatement` error when expansion reaches it — it is neither
skipped nor emitted. -/
theorem invalid_macro_statement_error :
    ∀ (c : Contract) (mn : String) (ps : List String) (t r : Nat)
      (pre : List Byte) (s : Statement) (rest : List IRByte) (fuel : Nat)
      (scope : List MacroDefinition),
      (∀ mi, s ≠ Statement.macroInvocation mi) →
      recurse_bytecode (fuel + 1)
          ⟨mn, ps, t, r, pre.map IRByte.byte ++ .statement s :: rest⟩
          (some c) scope =
        some (.error .invalidMacroStatement, scope) := by
  intro c mn ps t r pre s rest fuel scope hs
  show runLoop (recurse_bytecode fuel) c (some c)
    (pre.map IRByte.byte ++ .statement s :: rest) scope [] = _
  rw [runLoop_bytes]
  cases s with
  | macroInvocation mi => exact absurd rfl (hs mi)
  | literal l => rfl
  | label nm => rfl

/-- Witness for C8: a label declaration wrapped as a nested statement. -/
theorem invalid_macro_statement_error_witness :
    recurse_bytecode 1
        ⟨"W3", [], 0, 0, [.byte "aa", .statement (.label "jump_in"), .byte "bb"]⟩
        (some exConstContract) [] =
      some (.error .invalidMacroStatement, []) := by
  exact invalid_macro_statement_error exConstContract "W3" [] 0 0 ["aa"]
    (.label "jump_in") [.byte "bb"] 0 []
    (fun mi hmi => Statement.noConfusion hmi)

/-- C9: a named argument-call reference contributes zero bytes and does not
fail: a macro whose IR is `b1`, an arg-call, `b2` expands to exactly
`[b1, b2]` with the scope untouched. -/
theorem arg_call_zero_bytes :
    ∀ (c : Contract) (mn an : String) (ps : List String) (t r fuel : Nat)
      (b1 b2 : Byte) (scope : List MacroDefinition),
      recurse_bytecode (fuel + 1)
          ⟨mn, ps, t, r, [.byte b1, .argCall an, .byte b2]⟩ (some c) scope =
        some (.ok [b1, b2], scope) := by
  intro c mn an ps t r fuel b1 b2 scope
  rfl

/-- C10: artifact updates are per-field framed: `churn` writes only the
`bytecode` and `runtime` fields and keeps a previously stored ABI;
`abigen` writes only the `abi` field and keeps previously stored
bytecode and runtime strings. -/
theorem artifact_field_framing :
    (∀ (self : Codegen) (args : List (List Nat)) (mainB ctorB : String)
      (art : Artifact) (abi0 : Abi),
      self.artifact = some art → art.abi = some abi0 →
      ((churn self args mainB ctorB).1.artifact).map Artifact.abi =
          some (some abi0) ∧
        ((churn self args mainB ctorB).2).abi = some abi0) ∧
    (∀ (self : Codegen) (ast : Contract) (art : Artifact),
      self.artifact = some art →
      ((abigen self ast).1.artifact).map Artifact.bytecode =
          some art.bytecode ∧
        ((abigen self ast).1.artifact).map Artifact.runtime =
          some art.runtime) := by
  constructor
  · intro self args mainB ctorB art abi0 hart habi
    constructor
    · simp [churn, hart, habi]
    · simp [churn, hart, habi]
  · intro self ast art hart
    constructor
    · simp [abigen, hart]
    · simp [abigen, hart]

/-- Witness for C10 at concrete artifacts: `churn` keeps the stored ABI,
`abigen` keeps the stored bytecode and runtime strings. -/
theorem artifact_field_framing_witness :
    ((churn ⟨none, some ⟨"aa", "bb", some ⟨["f1"], ["e1"]⟩⟩, none, none⟩
          [] "cc" "dd").1.artifact).map Artifact.abi =
        some (some ⟨["f1"], ["e1"]⟩) ∧
      ((abigen ⟨none, some ⟨"aa", "bb", none⟩, none, none⟩
          ⟨[], [], ["f2"], ["e2"]⟩).1.artifact).map Artifact.bytecode =
        some "aa" ∧
      ((abigen ⟨none, some ⟨"aa", "bb", none⟩, none, none⟩
          ⟨[], [], ["f2"], ["e2"]⟩).1.artifact).map Artifact.runtime =
        some "bb" := by
  refine ⟨?_, ?_, ?_⟩
  · exact (artifact_field_framing.1 ⟨none, some ⟨"aa", "bb", some ⟨["f1"], ["e1"]⟩⟩,
      none, none⟩ [] "cc" "dd" ⟨"aa", "bb", some ⟨["f1"], ["e1"]⟩⟩
      ⟨["f1"], ["e1"]⟩ rfl rfl).1
  · exact (artifact_field_framing.2 ⟨none, some ⟨"aa", "bb", none⟩, none, none⟩
      ⟨[], [], ["f2"], ["e2"]⟩ ⟨"aa", "bb", none⟩ rfl).1
  · exact (artifact_field_framing.2 ⟨none, some ⟨"aa", "bb", none⟩, none, none⟩
      ⟨[], [], ["f2"], ["e2"]⟩ ⟨"aa", "bb", none⟩ rfl).2

end HuffCodegen
